import Mathlib

/-!
Shallow embedding of the UFC fight-predictor repository
(`ufc_scraper/utils.py`, `ufc_scraper/scraper.py`,
`ufc_scraper/fighter_organizer.py`, `app.py`) and proofs of the
specification claims about it.

Python strings are modelled as `List Char` (`Str`); `None` becomes
`Option.none`; machine floats used only for unit conversion are modelled
as exact rationals (the claimed concrete values are unaffected by the
difference, see the comments at `pyRound`).
-/

/-- Python strings are lists of code points. -/
abbrev Str := List Char

/-- String literal to `Str`. -/
def toL (s : String) : Str := s.data

/-- The apostrophe code point (avoids escaping in literals). -/
def apos : Char := Char.ofNat 39

/-- The double-quote code point. -/
def dquo : Char := Char.ofNat 34

/-- The newline code point. -/
def nl : Char := Char.ofNat 10

/-- Code points treated as whitespace by Python's `str.split()` and by the
`re` module's `\s` (ASCII whitespace, the C0 separators, NEL, NBSP and the
Unicode space separators). -/
def pyWsCodes : List Nat :=
  [9, 10, 11, 12, 13, 28, 29, 30, 31, 32, 133, 160, 5760,
   8192, 8193, 8194, 8195, 8196, 8197, 8198, 8199, 8200, 8201, 8202,
   8232, 8233, 8239, 8287, 12288]

/-- Whether a character is Python whitespace. -/
def isPyWs (c : Char) : Bool := c.toNat ∈ pyWsCodes

/-- Python `str.lstrip()` (whitespace on the left). -/
def pyLStrip (s : Str) : Str := s.dropWhile isPyWs

/-- Python `str.strip()`: drop whitespace from both ends. -/
def pyStrip (s : Str) : Str := ((pyLStrip s).reverse.dropWhile isPyWs).reverse

/-- Accumulator pass of Python `str.split()` with no argument: splits on
whitespace runs and drops empty fields. `cur` holds the current word,
reversed. -/
def wordsAux : Str → Str → List Str
  | [], cur => if cur = [] then [] else [cur.reverse]
  | c :: cs, cur =>
      if isPyWs c then
        if cur = [] then wordsAux cs [] else cur.reverse :: wordsAux cs []
      else wordsAux cs (c :: cur)

/-- Python `str.split()` with no argument. -/
def pySplit (s : Str) : List Str := wordsAux s []

/-- Python `sep.join(parts)`. -/
def pyJoin (sep : Str) : List Str → Str
  | [] => []
  | [w] => w
  | w :: w2 :: ws => w ++ sep ++ pyJoin sep (w2 :: ws)

/-- From `utils.clean_text` (the non-`None` case):
`' '.join(text.split()).strip()`. `None` input is handled at call sites,
where the source's `if text is None: return ""` branch is modelled. -/
def clean_text (s : Str) : Str :=
  pyStrip (pyJoin (toL " ") (pySplit s))

/-- ASCII decimal digit test (Python `int` accepts more Unicode digits;
the scraped fields are ASCII). -/
def isAsciiDigit (c : Char) : Bool := 48 ≤ c.toNat ∧ c.toNat ≤ 57

/-- Numeric value of an ASCII digit list, most significant first. -/
def digitsToNat (l : Str) : Nat :=
  l.foldl (fun acc c => 10 * acc + (c.toNat - 48)) 0

/-- Python `int(s)`: optional surrounding whitespace, an optional sign,
then a nonempty digit run; anything else raises `ValueError`, modelled as
`none`. (Underscore digit separators are not modelled; no input in this
repository contains them.) -/
def pyInt (s : Str) : Option Int :=
  let t := pyStrip s
  match t with
  | [] => none
  | c :: rest =>
      if c = Char.ofNat 43 then  -- plus sign
        if rest ≠ [] ∧ rest.all isAsciiDigit then some (digitsToNat rest) else none
      else if c = Char.ofNat 45 then  -- minus sign
        if rest ≠ [] ∧ rest.all isAsciiDigit then some (-(digitsToNat rest : Int)) else none
      else if t.all isAsciiDigit then some (digitsToNat t) else none

/-- Python `round` applied to the exact quotient `a / b` (with `b > 0`):
round half to even. The source rounds the float `total_inches * 2.54`,
i.e. the quotient `(total_inches * 254) / 100` up to float error; on
every integer inch count the float rounds to the same integer as the
exact quotient, so this integer model is faithful for those calls. -/
def pyRound (a b : Int) : Int :=
  let q := a.fdiv b
  let r := a.fmod b
  if 2 * r < b then q
  else if b < 2 * r then q + 1
  else if q % 2 = 0 then q else q + 1

/-- Whether `p` is a suffix of `s`, computably. -/
def endsWithL (s p : Str) : Bool := p.reverse.isPrefixOf s.reverse

/-- Python `sep in s` (substring containment) for `Str`. -/
def strContains (s pat : Str) : Bool := s.tails.any fun t => pat.isPrefixOf t

/-- Accumulator pass of Python `s.split(sep)` for a one-character
separator. -/
def splitOnCAux (sep : Char) : Str → Str → List Str
  | [], cur => [cur.reverse]
  | c :: cs, cur =>
      if c = sep then cur.reverse :: splitOnCAux sep cs []
      else splitOnCAux sep cs (c :: cur)

/-- Python `s.split(sep)` for a one-character separator. -/
def splitOnC (sep : Char) (s : Str) : List Str := splitOnCAux sep s []

/-- From `utils.parse_height_to_cm`: converts a height string like
`5' 11"` to centimeters, `none` on empty input, on any input containing
`--`, or on malformed input. -/
def parse_height_to_cm (s : Str) : Option Int :=
  if s = [] ∨ strContains s (toL "--") then none
  else
    -- height_str = height_str.replace(' ', '')
    let h := s.filter (fun c => c ≠ Char.ofNat 32)
    -- parts = height_str.replace('"', '').split("'")
    let parts := splitOnC apos (h.filter (fun c => c ≠ dquo))
    if parts.length = 2 then
      match pyInt (parts.getD 0 []) with
      | none => none
      | some feet =>
          let p1 := parts.getD 1 []
          if p1 ≠ [] then
            match pyInt p1 with
            | none => none
            | some inches => some (pyRound ((feet * 12 + inches) * 254) 100)
          else some (pyRound (feet * 12 * 254) 100)
    else if parts.length = 1 ∧ parts.getD 0 [] ≠ [] then
      -- checks are made on the space-stripped string that still has quotes
      if apos ∈ h ∧ ¬ dquo ∈ h then
        match pyInt (parts.getD 0 []) with
        | none => none
        | some feet => some (pyRound (feet * 12 * 254) 100)
      else if dquo ∈ h then
        match pyInt (parts.getD 0 []) with
        | none => none
        | some inches => some (pyRound (inches * 254) 100)
      else none
    else none

/-- ASCII lowercasing, modelling `re.IGNORECASE` on the ASCII patterns of
`normalize_weight_class`. (Python additionally case-folds a few exotic
code points such as the Kelvin sign; no claim depends on them.) -/
def lowerAscii (c : Char) : Char :=
  if 65 ≤ c.toNat ∧ c.toNat ≤ 90 then Char.ofNat (c.toNat + 32) else c

/-- Lowercase an entire string. -/
def lcList (s : Str) : Str := s.map lowerAscii

/-- Whether one of the alternatives of the suffix pattern
`(Bout|Title Bout|Interim.*Title Bout|Catch Weight.*|The Ultimate Fighter.*Final|Tournament.*Final)`
matches the whole of `s`, case-insensitively. The patterns are applied to
cleaned text, which contains no newline, so `.` ranges over every
remaining character and `$` is end-of-string. The length conditions make
the literal head and tail of the `.*` alternatives disjoint. -/
def altMatches (s : Str) : Bool :=
  let t := lcList s
  t = toL "bout" || t = toL "title bout" ||
  ((toL "interim").isPrefixOf t && endsWithL t (toL "title bout") && 17 ≤ t.length) ||
  (toL "catch weight").isPrefixOf t ||
  ((toL "the ultimate fighter").isPrefixOf t && endsWithL t (toL "final") && 25 ≤ t.length) ||
  ((toL "tournament").isPrefixOf t && endsWithL t (toL "final") && 15 ≤ t.length)

/-- Whether `\s+(ALT)$` matches the whole of `s`: a nonempty whitespace
run followed by one of the bout-type alternatives reaching the end. -/
def wsPlusAlt : Str → Bool
  | [] => false
  | c :: cs => isPyWs c && (altMatches cs || wsPlusAlt cs)

/-- From `utils.normalize_weight_class`, first substitution:
`re.sub(r'\s+(Bout|...|Tournament.*Final)$', '', s, flags=IGNORECASE)`.
The match must reach the end of the string, so at most one (leftmost)
match exists and substitution truncates the string there. -/
def subSuffix : Str → Str
  | [] => []
  | c :: cs => if wsPlusAlt (c :: cs) then [] else c :: subSuffix cs

/-- From `utils.normalize_weight_class`, second substitution:
`re.sub(r'^UFC\s+', '', s, flags=IGNORECASE)` — strips one leading `UFC`
followed by its maximal whitespace run. -/
def subUfc (s : Str) : Str :=
  if (toL "ufc").isPrefixOf (lcList s) then
    match s.drop 3 with
    | [] => s
    | c :: cs => if isPyWs c then cs.dropWhile isPyWs else s
  else s

/-- From `utils.normalize_weight_class`: `None` maps to `"Unknown"`,
otherwise the string is cleaned, the bout-type suffix and `UFC` head are
stripped, and an empty result maps to `"Unknown"`. -/
def normalize_weight_class : Option Str → Str
  | none => toL "Unknown"
  | some s =>
      let s1 := clean_text s
      let s2 := subUfc (subSuffix s1)
      if s2 = [] then toL "Unknown" else clean_text s2

/-- ASCII alphanumeric test, the character class `[a-zA-Z0-9]` of the
fighter-id pattern. -/
def isAsciiAlnum (c : Char) : Bool :=
  (48 ≤ c.toNat ∧ c.toNat ≤ 57) ∨ (65 ≤ c.toNat ∧ c.toNat ≤ 90) ∨
  (97 ≤ c.toNat ∧ c.toNat ≤ 122)

/-- Drop a literal leading pattern, or fail. -/
def stripPre : Str → Str → Option Str
  | [], s => some s
  | _ :: _, [] => none
  | p :: ps, c :: cs => if p = c then stripPre ps cs else none

/-- From `utils.parse_fighter_id_from_url`:
`re.search(r'fighter-details/([a-zA-Z0-9]+)$', url)`. A `$` in a Python
pattern also matches just before one final newline, hence the `nl` case.
The captured group is the maximal trailing alphanumeric run, which must be
nonempty and be immediately preceded by `fighter-details/`. -/
def parse_fighter_id_from_url (url : Str) : Option Str :=
  if url = [] then none
  else
    let u := if url.getLast? = some nl then url.dropLast else url
    let rev := u.reverse
    let t := (rev.takeWhile isAsciiAlnum).reverse
    let rest := (rev.dropWhile isAsciiAlnum).reverse
    if t ≠ [] ∧ endsWithL rest (toL "fighter-details/") then some t else none

/-! Fight-row extraction, from `scraper.scrape_event_fights`. The
document queries (CSS selectors, `get_text`, attribute lookup) are
abstracted: a row is modelled by the results those queries return on it,
and the extraction logic below them is embedded verbatim. -/

/-- From `config.FIGHTER_STATS_BASE_URL`. -/
def FIGHTER_STATS_BASE_URL : Str := toL "http://ufcstats.com"

/-- An `<a>` element as the scraper sees it: its text content and its
optional `href` attribute. -/
structure ATag where
  text : Str
  href : Option Str
deriving DecidableEq, Repr

/-- A `<td>` column of a fight row, abstracted to the query results the
scraper performs on it: its `<a>` descendants (used on column 1), the
class list of the first paragraph's status icon when that icon exists
(used on column 0), the text of its `p.b-fight-details__table-text`
paragraph when present (used on column 6), and its flat text content
(used on columns 7-9). -/
structure Col where
  aTags : List ATag
  statusClasses : Option (List Str)
  pText : Option Str
  colText : Str
deriving DecidableEq, Repr

/-- A default column: no descendants, no tags, empty text. -/
def emptyCol : Col := ⟨[], none, none, []⟩

/-- A `<tr>` fight row: its optional `data-link` attribute and its direct
`<td>` children. -/
structure FightRow where
  dataLink : Option Str
  cols : List Col
deriving DecidableEq, Repr

/-- A fight record as assembled by `scrape_event_fights`. -/
structure Fight where
  fighter1_name : Str
  fighter1_url : Option Str
  fighter2_name : Str
  fighter2_url : Option Str
  winner : Str
  method : Str
  round : Str
  time : Str
  weight_class : Str
  fight_details_url : Str
  event_date : Str
deriving DecidableEq, Repr

/-- Fighter-link resolution:
`(BASE + href) if href and not href.startswith('http') else href`. -/
def resolveUrl (href : Option Str) : Option Str :=
  match href with
  | none => none
  | some h =>
      if h ≠ [] ∧ ¬ (toL "http").isPrefixOf h then some (FIGHTER_STATS_BASE_URL ++ h)
      else some h

/-- Winner resolution from the status icon attached to fighter 1
(`scraper.py` lines 91-106): green means fighter 1 won, red means
fighter 2 won, blue is a draw, yellow a no contest, anything else (or a
missing icon) is unknown. -/
def determineWinner (statusClasses : Option (List Str)) (f1 f2 : Str) : Str :=
  match statusClasses with
  | none => toL "N/A"
  | some cls =>
      if toL "b-fight-details__person-status_style_green" ∈ cls then f1
      else if toL "b-fight-details__person-status_style_red" ∈ cls then f2
      else if toL "b-fight-details__person-status_style_blue" ∈ cls then toL "Draw"
      else if toL "b-fight-details__person-status_style_yellow" ∈ cls then toL "No Contest"
      else toL "N/A"

/-- Body of the fight-row loop after its guards: assembles the fight
record from the row's columns (`scraper.py` lines 77-138). `dl` is the
row's `data-link` value. -/
def buildFight (event_date : Str) (row : FightRow) (dl : Str) : Fight :=
  let col0 := row.cols.getD 0 emptyCol
  let col1 := row.cols.getD 1 emptyCol
  let fighter1_tag := col1.aTags.get? 0
  let fighter2_tag := col1.aTags.get? 1
  let fighter1_name := match fighter1_tag with
    | some t => clean_text t.text
    | none => toL "N/A"
  let fighter1_url := match fighter1_tag with
    | some t => resolveUrl t.href
    | none => none
  let fighter2_name := match fighter2_tag with
    | some t => clean_text t.text
    | none => toL "N/A"
  let fighter2_url := match fighter2_tag with
    | some t => resolveUrl t.href
    | none => none
  let winner := determineWinner col0.statusClasses fighter1_name fighter2_name
  let weight_class_str := match (row.cols.getD 6 emptyCol).pText with
    | some t => clean_text t
    | none => toL "Unknown"
  let normalized_wc := normalize_weight_class (some weight_class_str)
  let method_text := clean_text (row.cols.getD 7 emptyCol).colText
  let round_val := clean_text (row.cols.getD 8 emptyCol).colText
  let time_val := clean_text (row.cols.getD 9 emptyCol).colText
  let full_url := if dl ≠ [] ∧ ¬ (toL "http").isPrefixOf dl then FIGHTER_STATS_BASE_URL ++ dl else dl
  { fighter1_name := fighter1_name
    fighter1_url := fighter1_url
    fighter2_name := fighter2_name
    fighter2_url := fighter2_url
    winner := winner
    method := method_text
    round := round_val
    time := time_val
    weight_class := normalized_wc
    fight_details_url := full_url
    event_date := event_date }

/-- One iteration of the fight-row loop: the row is skipped when its
`data-link` attribute is missing or falsy, or when it has fewer than 10
direct columns (`scraper.py` lines 72-75). -/
def processRow (event_date : Str) (row : FightRow) : Option Fight :=
  match row.dataLink with
  | none => none
  | some dl =>
      if dl = [] then none
      else if row.cols.length < 10 then none
      else some (buildFight event_date row dl)

/-- From `scraper.scrape_event_fights`, with the document fetch
abstracted to the list of rows matching the
`tr.b-fight-details__table-row[data-link]` selector. -/
def scrape_event_fights (event_date : Str) (rows : List FightRow) : List Fight :=
  rows.filterMap (processRow event_date)

/-! Fighter-index construction, from
`fighter_organizer.update_fighter_index` (persistence side effects
dropped). The index is modelled as the function from weight-class name
to its entry list; a never-touched class maps to `[]`, matching the
`defaultdict` read behaviour. -/

/-- An entry of the fighter index: `{"name": ..., "url": ...}`. -/
structure FighterEntry where
  name : Str
  url : Str
deriving DecidableEq, Repr

/-- Weight-class key of a fight:
`wc = fight.get("weight_class", "Unknown"); if wc == "N/A" or not wc: wc = "Unknown"`. -/
def fightWc (f : Fight) : Str :=
  if f.weight_class = toL "N/A" ∨ f.weight_class = [] then toL "Unknown" else f.weight_class

/-- The `fighters_in_fight` list of name/url pairs. -/
def fightParticipants (f : Fight) : List (Str × Option Str) :=
  [(f.fighter1_name, f.fighter1_url), (f.fighter2_name, f.fighter2_url)]

/-- Adds one participant to the index under weight class `wc` when its
name is truthy and not `"N/A"` and its url is truthy; the membership test
plays the role of the `unique_fighters_in_class[wc]` set, which holds
exactly the `(name, url)` tuples already appended to `fighter_index[wc]`. -/
def addFighter (wc : Str) (acc : Str → List FighterEntry) :
    Str × Option Str → Str → List FighterEntry
  | (_, none) => acc
  | (n, some u) =>
      if n ≠ [] ∧ n ≠ toL "N/A" ∧ u ≠ [] then
        if (⟨n, u⟩ : FighterEntry) ∈ acc wc then acc
        else fun w => if w = wc then acc wc ++ [⟨n, u⟩] else acc w
      else acc

/-- Folds one fight's two participants into the index. -/
def addFight (acc : Str → List FighterEntry) (f : Fight) : Str → List FighterEntry :=
  (fightParticipants f).foldl (addFighter (fightWc f)) acc

/-- The unsorted index accumulated over all fights. -/
def buildRawIndex (fights : List Fight) : Str → List FighterEntry :=
  fights.foldl addFight (fun _ => [])

/-- Name order used by `sorted(..., key=lambda x: x['name'])`: Python
string comparison, i.e. lexicographic on code points. -/
def strLe : Str → Str → Bool
  | [], _ => true
  | _ :: _, [] => false
  | a :: as, b :: bs =>
      decide (a.toNat < b.toNat) || (decide (a.toNat = b.toNat) && strLe as bs)

/-- Insert an entry into a name-sorted list, keeping it before any entry
with an `≥` name; with `strLe` this is a stable insertion, as Python's
stable `sorted` requires. -/
def insertEntry (x : FighterEntry) : List FighterEntry → List FighterEntry
  | [] => [x]
  | y :: ys => if strLe x.name y.name then x :: y :: ys else y :: insertEntry x ys

/-- Stable insertion sort by fighter name, modelling
`sorted(fighter_index[wc], key=lambda x: x['name'])`. -/
def sortByName (l : List FighterEntry) : List FighterEntry :=
  l.foldr insertEntry []

/-- From `fighter_organizer.update_fighter_index`: builds the raw index
from all fights, then sorts each weight class's fighters by name. -/
def update_fighter_index (fights : List Fight) (wc : Str) : List FighterEntry :=
  sortByName (buildRawIndex fights wc)

/-! Prediction endpoint, from `app.predict`. The two XGBoost models and
the float feature values carry no logic of this repository: the models
are abstracted to functions supplied as arguments and scalars to an
arbitrary type `F` (only the length of the feature vector is ever
inspected by the endpoint's own logic). `round(confidence, 4)` is a
float operation inside the opaque scalar type and is left with the
model output. -/

/-- An HTTP error response raised via `HTTPException`. -/
structure HttpError where
  status : Nat
  detail : Str
deriving Repr

/-- The `PredictionRequest` body. -/
structure PredictionRequest (F : Type) where
  r_fighter_name : Str
  b_fighter_name : Str
  features : List F

/-- The `PredictionResponse` body. -/
structure PredictionResponse (F : Type) where
  r_fighter_name : Str
  b_fighter_name : Str
  predicted_winner : Str
  winner_determination_class : Str
  confidence : F
  finish_prediction : Str
  note : Str

/-- The two loaded classifiers, abstracted to their scoring functions:
predicted class, class probability, and finish class. -/
structure Models (F : Type) where
  winnerPredict : List F → Int
  winnerProba : List F → Int → F
  finishPredict : List F → Int

/-- The hardcoded winner map `{0: "Red", 1: "Blue"}` with the
`dict.get` fallback `f"Unknown Class {winner_pred_class}"`. -/
def winnerClassLabel (k : Int) : Str :=
  if k = 0 then toL "Red"
  else if k = 1 then toL "Blue"
  else toL "Unknown Class " ++ (toString k).data

/-- The hardcoded finish map with its `dict.get` fallback. -/
def finishLabel (k : Int) : Str :=
  if k = 0 then toL "KO/TKO"
  else if k = 1 then toL "Submission"
  else if k = 2 then toL "Decision - Unanimous"
  else if k = 3 then toL "Decision - Split"
  else if k = 4 then toL "Decision - Majority"
  else if k = 5 then toL "DQ"
  else toL "Unknown Finish Method (Class " ++ (toString k).data ++ toL ")"

/-- From `app.predict`: 503 when either model or the feature-name list
is missing, 400 when the feature vector length differs from the
feature-name list length, otherwise the computed prediction. -/
def predict {F : Type} (modelWinnerLoaded modelFinishLoaded : Bool)
    (feature_names : List Str) (models : Models F)
    (request_data : PredictionRequest F) :
    Except HttpError (PredictionResponse F) :=
  if ¬ modelWinnerLoaded ∨ ¬ modelFinishLoaded then
    .error ⟨503, toL "Models not loaded."⟩
  else if feature_names = [] then
    .error ⟨503, toL "Feature names configuration is missing. Cannot make predictions."⟩
  else if request_data.features.length ≠ feature_names.length then
    .error ⟨400, toL "Feature mismatch. Expected " ++ (toString feature_names.length).data
      ++ toL " features, got " ++ (toString request_data.features.length).data ++ toL "."⟩
  else
    let winner_pred_class := models.winnerPredict request_data.features
    let predicted_winner_label := winnerClassLabel winner_pred_class
    let predicted_winner_name :=
      if predicted_winner_label = toL "Red" then request_data.r_fighter_name
      else if predicted_winner_label = toL "Blue" then request_data.b_fighter_name
      else predicted_winner_label
    let confidence := models.winnerProba request_data.features winner_pred_class
    let finish_pred_class := models.finishPredict request_data.features
    .ok
      { r_fighter_name := request_data.r_fighter_name
        b_fighter_name := request_data.b_fighter_name
        predicted_winner := predicted_winner_name
        winner_determination_class := predicted_winner_label
        confidence := confidence
        finish_prediction := finishLabel finish_pred_class
        note := toL "Predictions based on XGBoost models." }

/-- Specification-side predicate for the fighter-id claim: the URL ends
with a `fighter-details/` segment followed by a nonempty alphanumeric
run. Matching the `$` of the source pattern, the run may also stop just
before one final newline. -/
def endsWithFighterId (v : Str) : Bool :=
  v.tails.any fun t =>
    match stripPre (toL "fighter-details/") t with
    | some idp => decide (idp ≠ []) && idp.all isAsciiAlnum
    | none => false

/-- Specification-side predicate: the URL carries a trailing
`fighter-details/` id segment. -/
def hasTrailingFighterId (url : Str) : Bool :=
  endsWithFighterId url ||
    (decide (url.getLast? = some nl) && endsWithFighterId url.dropLast)

/-! Concrete sample data used to instantiate the universally quantified
theorems below. -/

/-- A sample winner-status column (green icon on fighter 1). -/
def sampleCol0 : Col :=
  ⟨[], some [toL "b-fight-details__person-status_style_green"], none, []⟩

/-- A sample fighters column with two fighter links. -/
def sampleCol1 : Col :=
  ⟨[⟨toL "Alice Smith", some (toL "/fighter-details/aaa111")⟩,
    ⟨toL "Bea Jones", some (toL "/fighter-details/bbb222")⟩], none, none, []⟩

/-- A sample weight-class column. -/
def sampleCol6 : Col := ⟨[], none, some (toL "Lightweight Bout"), []⟩

/-- A sample text column. -/
def sampleColT (t : String) : Col := ⟨[], none, none, toL t⟩

/-- A complete sample fight row with ten columns. -/
def sampleRow : FightRow :=
  ⟨some (toL "/fight-details/ccc333"),
   [sampleCol0, sampleCol1, emptyCol, emptyCol, emptyCol, emptyCol, sampleCol6,
    sampleColT "KO/TKO Punches", sampleColT "1", sampleColT "2:34"]⟩

/-- A sample event date. -/
def sampleDate : Str := toL "April 13, 2024"

/-- A sample lightweight fight between Alice Smith and Bea Jones. -/
def sampleFightA : Fight :=
  ⟨toL "Alice Smith", some (toL "http://ufcstats.com/fighter-details/aaa111"),
   toL "Bea Jones", some (toL "http://ufcstats.com/fighter-details/bbb222"),
   toL "Alice Smith", toL "KO/TKO Punches", toL "1", toL "2:34",
   toL "Lightweight", toL "http://ufcstats.com/fight-details/ccc333", sampleDate⟩

/-- A second lightweight fight sharing Alice Smith with the first. -/
def sampleFightB : Fight :=
  ⟨toL "Cara Lee", some (toL "http://ufcstats.com/fighter-details/ddd444"),
   toL "Alice Smith", some (toL "http://ufcstats.com/fighter-details/aaa111"),
   toL "Cara Lee", toL "Submission", toL "2", toL "1:11",
   toL "Lightweight", toL "http://ufcstats.com/fight-details/eee555", sampleDate⟩

/-! Supporting lemmas about `clean_text`. -/

theorem wordsAux_ws_nil (r : Str) (hr : ∀ c ∈ r, isPyWs c = true) :
    wordsAux r [] = [] := by
  induction r with
  | nil => rfl
  | cons c cs ih =>
      have hc : isPyWs c = true := hr c (by simp)
      simp only [wordsAux, hc, if_pos rfl, if_true]
      exact ih fun d hd => hr d (by simp [hd])

theorem wordsAux_ws (r acc : Str) (hr : ∀ c ∈ r, isPyWs c = true) :
    wordsAux r acc = wordsAux [] acc := by
  cases r with
  | nil => rfl
  | cons c cs =>
      have hc : isPyWs c = true := hr c (by simp)
      have hcs : wordsAux cs [] = [] :=
        wordsAux_ws_nil cs fun d hd => hr d (by simp [hd])
      cases h : acc with
      | nil => simp [wordsAux, hc, hcs]
      | cons a as => simp [wordsAux, hc, hcs]

theorem wordsAux_append_ws (s r : Str) (hr : ∀ c ∈ r, isPyWs c = true) :
    ∀ acc, wordsAux (s ++ r) acc = wordsAux s acc := by
  induction s with
  | nil =>
      intro acc
      simpa using wordsAux_ws r acc hr
  | cons c cs ih =>
      intro acc
      by_cases hc : isPyWs c = true
      · cases h : acc with
        | nil => simp [wordsAux, hc, ih]
        | cons a as => simp [wordsAux, hc, ih]
      · have hc' : isPyWs c = false := by simpa using hc
        simp [wordsAux, hc', ih]

theorem wordsAux_dropWhile (s : Str) :
    wordsAux (s.dropWhile isPyWs) [] = wordsAux s [] := by
  induction s with
  | nil => rfl
  | cons c cs ih =>
      by_cases hc : isPyWs c = true
      · simpa [List.dropWhile, hc, wordsAux] using ih
      · have hc' : isPyWs c = false := by simpa using hc
        simp [List.dropWhile, hc']

theorem pyLStrip_eq_strip_append (s : Str) :
    ∃ r, pyLStrip s = pyStrip s ++ r ∧ ∀ c ∈ r, isPyWs c = true := by
  refine ⟨((pyLStrip s).reverse.takeWhile isPyWs).reverse, ?_, ?_⟩
  · have h := List.takeWhile_append_dropWhile (l := (pyLStrip s).reverse) (p := isPyWs)
    calc pyLStrip s = (pyLStrip s).reverse.reverse := (List.reverse_reverse _).symm
      _ = ((pyLStrip s).reverse.takeWhile isPyWs ++
            (pyLStrip s).reverse.dropWhile isPyWs).reverse := by rw [h]
      _ = pyStrip s ++ ((pyLStrip s).reverse.takeWhile isPyWs).reverse := by
            rw [List.reverse_append]; rfl
  · intro c hc
    exact List.mem_takeWhile_imp (List.mem_reverse.mp hc)

theorem pySplit_strip (s : Str) : pySplit (pyStrip s) = pySplit s := by
  obtain ⟨r, h1, h2⟩ := pyLStrip_eq_strip_append s
  have e1 : pySplit (pyLStrip s) = pySplit s := wordsAux_dropWhile s
  have e2 : wordsAux (pyStrip s ++ r) [] = wordsAux (pyStrip s) [] :=
    wordsAux_append_ws (pyStrip s) r h2 []
  calc pySplit (pyStrip s) = wordsAux (pyStrip s ++ r) [] := e2.symm
    _ = pySplit (pyLStrip s) := by rw [← h1]; rfl
    _ = pySplit s := e1

theorem wordsAux_words (s : Str) :
    ∀ acc, (∀ c ∈ acc, isPyWs c = false) →
      ∀ w ∈ wordsAux s acc, w ≠ [] ∧ ∀ c ∈ w, isPyWs c = false := by
  induction s with
  | nil =>
      intro acc hacc w hw
      cases h : acc with
      | nil => simp [wordsAux, h] at hw
      | cons a as =>
          subst h
          simp [wordsAux] at hw
          subst hw
          constructor
          · simp
          · intro c hc
            apply hacc c
            simp only [List.mem_cons]
            rcases List.mem_append.mp hc with h1 | h1
            · exact Or.inr (List.mem_reverse.mp h1)
            · exact Or.inl (by simpa using h1)
  | cons c cs ih =>
      intro acc hacc w hw
      by_cases hc : isPyWs c = true
      · cases h : acc with
        | nil =>
            subst h
            simp only [wordsAux, hc, if_true, if_pos rfl] at hw
            exact ih [] (by simp) w hw
        | cons a as =>
            subst h
            simp only [wordsAux, hc, if_true] at hw
            rw [if_neg (by simp)] at hw
            rcases List.mem_cons.mp hw with h1 | h1
            · subst h1
              exact ⟨by simp, fun d hd => hacc d (List.mem_reverse.mp hd)⟩
            · exact ih [] (by simp) w h1
      · have hc' : isPyWs c = false := by simpa using hc
        simp only [wordsAux, hc', if_false, Bool.false_eq_true] at hw
        refine ih (c :: acc) ?_ w hw
        intro d hd
        rcases List.mem_cons.mp hd with h1 | h1
        · subst h1; exact hc'
        · exact hacc d h1

theorem wordsAux_append_nonws (w : Str) (hw : ∀ c ∈ w, isPyWs c = false) :
    ∀ rest acc, wordsAux (w ++ rest) acc = wordsAux rest (w.reverse ++ acc) := by
  induction w with
  | nil => intro rest acc; simp
  | cons c cs ih =>
      intro rest acc
      have hc : isPyWs c = false := hw c (by simp)
      have hcs : ∀ d ∈ cs, isPyWs d = false := fun d hd => hw d (by simp [hd])
      calc wordsAux ((c :: cs) ++ rest) acc
          = wordsAux (cs ++ rest) (c :: acc) := by
            simp [wordsAux, hc]
        _ = wordsAux rest (cs.reverse ++ (c :: acc)) := ih hcs rest (c :: acc)
        _ = wordsAux rest ((c :: cs).reverse ++ acc) := by
            simp

theorem pySplit_join (L : List Str)
    (hL : ∀ w ∈ L, w ≠ [] ∧ ∀ c ∈ w, isPyWs c = false) :
    pySplit (pyJoin (toL " ") L) = L := by
  induction L with
  | nil => rfl
  | cons w L ih =>
      cases L with
      | nil =>
          obtain ⟨hne, hnw⟩ := hL w (by simp)
          show wordsAux (pyJoin (toL " ") [w]) [] = [w]
          have : wordsAux (w ++ []) [] = wordsAux [] (w.reverse ++ []) :=
            wordsAux_append_nonws w hnw [] []
          simp only [pyJoin]
          rw [show w = w ++ [] by simp, this]
          simp [wordsAux, hne]
      | cons w2 L2 =>
          obtain ⟨hne, hnw⟩ := hL w (by simp)
          have hrest : ∀ v ∈ w2 :: L2, v ≠ [] ∧ ∀ c ∈ v, isPyWs c = false :=
            fun v hv => hL v (by simp [hv])
          show wordsAux (pyJoin (toL " ") (w :: w2 :: L2)) [] = w :: w2 :: L2
          have hjoin : pyJoin (toL " ") (w :: w2 :: L2)
              = w ++ (toL " " ++ pyJoin (toL " ") (w2 :: L2)) := by
            simp [pyJoin]
          rw [hjoin, wordsAux_append_nonws w hnw _ []]
          have hsp : isPyWs (Char.ofNat 32) = true := by decide
          have hrev : w.reverse ++ [] ≠ [] := by simpa using hne
          show wordsAux (Char.ofNat 32 :: pyJoin (toL " ") (w2 :: L2)) (w.reverse ++ []) =
            w :: w2 :: L2
          simp only [wordsAux, hsp, if_true]
          rw [if_neg hrev]
          have := ih hrest
          simp only [pySplit] at this
          simp [this]

theorem clean_text_split (s : Str) : pySplit (clean_text s) = pySplit s := by
  show pySplit (pyStrip (pyJoin (toL " ") (pySplit s))) = pySplit s
  rw [pySplit_strip]
  exact pySplit_join (pySplit s) (wordsAux_words s [] (by simp))

theorem clean_text_idem (s : Str) : clean_text (clean_text s) = clean_text s := by
  show pyStrip (pyJoin (toL " ") (pySplit (clean_text s))) = clean_text s
  rw [clean_text_split]
  rfl

theorem dropWhile_head_false {p : Char → Bool} {l : Str} {c : Char} {cs : Str}
    (h : l.dropWhile p = c :: cs) : p c = false := by
  have := List.head?_dropWhile_not p l
  rw [h] at this
  simpa using this

theorem mem_pyStrip {s : Str} {c : Char} (hc : c ∈ s) (hw : isPyWs c = false) :
    c ∈ pyStrip s := by
  have h1 : c ∈ pyLStrip s := by
    have := List.takeWhile_append_dropWhile (p := isPyWs) (l := s)
    rw [← this] at hc
    rcases List.mem_append.mp hc with h | h
    · exact absurd (List.mem_takeWhile_imp h) (by simp [hw])
    · exact h
  show c ∈ ((pyLStrip s).reverse.dropWhile isPyWs).reverse
  rw [List.mem_reverse]
  have := List.takeWhile_append_dropWhile (p := isPyWs) (l := (pyLStrip s).reverse)
  have h2 : c ∈ (pyLStrip s).reverse := List.mem_reverse.mpr h1
  rw [← this] at h2
  rcases List.mem_append.mp h2 with h | h
  · exact absurd (List.mem_takeWhile_imp h) (by simp [hw])
  · exact h

theorem wordsAux_eq_nil {s : Str} :
    ∀ {acc : Str}, wordsAux s acc = [] → acc = [] ∧ ∀ c ∈ s, isPyWs c = true := by
  induction s with
  | nil =>
      intro acc h
      cases acc with
      | nil => exact ⟨rfl, by simp⟩
      | cons a as => simp [wordsAux] at h
  | cons c cs ih =>
      intro acc h
      by_cases hc : isPyWs c = true
      · cases hacc : acc with
        | nil =>
            subst hacc
            simp only [wordsAux, hc, if_true, if_pos rfl] at h
            obtain ⟨-, h2⟩ := ih h
            refine ⟨rfl, ?_⟩
            intro d hd
            rcases List.mem_cons.mp hd with h1 | h1
            · subst h1; exact hc
            · exact h2 d h1
        | cons a as =>
            subst hacc
            simp only [wordsAux, hc, if_true] at h
            rw [if_neg (by simp)] at h
            simp at h
      · have hc' : isPyWs c = false := by simpa using hc
        simp only [wordsAux, hc', Bool.false_eq_true, if_false] at h
        obtain ⟨h1, -⟩ := ih h
        simp at h1

theorem clean_text_ne_nil {s : Str} {c : Char} (hc : c ∈ s)
    (hw : isPyWs c = false) : clean_text s ≠ [] := by
  have hsplit : pySplit s ≠ [] := by
    intro h
    obtain ⟨-, hall⟩ := wordsAux_eq_nil h
    rw [hall c hc] at hw
    simp at hw
  obtain ⟨w, L, hwL⟩ : ∃ w L, pySplit s = w :: L := by
    cases h : pySplit s with
    | nil => exact absurd h hsplit
    | cons w L => exact ⟨w, L, rfl⟩
  obtain ⟨hne, hnw⟩ := wordsAux_words s [] (by simp) w (by rw [show wordsAux s [] = pySplit s from rfl, hwL]; simp)
  obtain ⟨d, ds, hd⟩ : ∃ d ds, w = d :: ds := by
    cases h : w with
    | nil => exact absurd h hne
    | cons d ds => exact ⟨d, ds, rfl⟩
  have hdmem : d ∈ pyJoin (toL " ") (pySplit s) := by
    rw [hwL]
    cases L with
    | nil => simp [pyJoin, hd]
    | cons w2 L2 => simp [pyJoin, hd]
  have : d ∈ clean_text s := mem_pyStrip hdmem (hnw d (by simp [hd]))
  exact fun hnil => by rw [hnil] at this; simp at this

theorem clean_text_head_not_ws {s : Str} {c : Char} {cs : Str}
    (h : clean_text s = c :: cs) : isPyWs c = false := by
  obtain ⟨r, h1, -⟩ := pyLStrip_eq_strip_append (pyJoin (toL " ") (pySplit s))
  have h2 : pyLStrip (pyJoin (toL " ") (pySplit s)) = c :: (cs ++ r) := by
    rw [h1]
    show clean_text s ++ r = c :: (cs ++ r)
    rw [h]
    simp
  exact dropWhile_head_false h2

theorem subSuffix_cons_not_ws {c : Char} (cs : Str) (h : isPyWs c = false) :
    subSuffix (c :: cs) = c :: subSuffix cs := by
  simp [subSuffix, wsPlusAlt, h]

theorem subUfc_cases (x : Str) :
    subUfc x = x ∨ ∃ t, subUfc x = List.dropWhile isPyWs t := by
  unfold subUfc
  split
  · split
    · exact Or.inl rfl
    · split
      · exact Or.inr ⟨_, rfl⟩
      · exact Or.inl rfl
  · exact Or.inl rfl

theorem subSuffix_head (s : Str) :
    subSuffix (clean_text s) = [] ∨
    ∃ c cs, subSuffix (clean_text s) = c :: cs ∧ isPyWs c = false := by
  cases h : clean_text s with
  | nil => exact Or.inl (by simp [h, subSuffix])
  | cons c cs =>
      have hw : isPyWs c = false := clean_text_head_not_ws h
      exact Or.inr ⟨c, subSuffix cs, subSuffix_cons_not_ws cs hw, hw⟩

theorem exists_not_ws_of_s2 (s : Str)
    (h2 : subUfc (subSuffix (clean_text s)) ≠ []) :
    ∃ c ∈ subUfc (subSuffix (clean_text s)), isPyWs c = false := by
  rcases subUfc_cases (subSuffix (clean_text s)) with hid | ⟨t, ht⟩
  · rw [hid] at h2 ⊢
    rcases subSuffix_head s with hnil | ⟨c, cs, hcons, hw⟩
    · exact absurd hnil h2
    · exact ⟨c, by rw [hcons]; simp, hw⟩
  · rw [ht] at h2 ⊢
    cases hd : List.dropWhile isPyWs t with
    | nil => exact absurd hd h2
    | cons d ds => exact ⟨d, by simp [hd], dropWhile_head_false hd⟩

theorem normalize_ne_nil (s : Str) : normalize_weight_class (some s) ≠ [] := by
  by_cases h2 : subUfc (subSuffix (clean_text s)) = []
  · simp [normalize_weight_class, h2, toL]
  · obtain ⟨c, hc, hw⟩ := exists_not_ws_of_s2 s h2
    have : normalize_weight_class (some s) = clean_text (subUfc (subSuffix (clean_text s))) := by
      simp [normalize_weight_class, h2]
    rw [this]
    exact clean_text_ne_nil hc hw

theorem clean_text_normalize (s : Str) :
    clean_text (normalize_weight_class (some s)) = normalize_weight_class (some s) := by
  by_cases h2 : subUfc (subSuffix (clean_text s)) = []
  · have : normalize_weight_class (some s) = toL "Unknown" := by
      simp [normalize_weight_class, h2]
    rw [this]
    decide
  · have : normalize_weight_class (some s) = clean_text (subUfc (subSuffix (clean_text s))) := by
      simp [normalize_weight_class, h2]
    rw [this]
    exact clean_text_idem _

/-- C2 (counterexample): `normalize_weight_class` is not idempotent. The
string `"UFC UFC Lightweight"` normalizes to `"UFC Lightweight"` (only
one leading `UFC` is stripped), and normalizing that output again strips
the second `UFC`, yielding `"Lightweight"`. -/
theorem C2_normalize_not_idempotent :
    normalize_weight_class (some (normalize_weight_class (some (toL "UFC UFC Lightweight")))) ≠
      normalize_weight_class (some (toL "UFC UFC Lightweight")) := by decide

/-- C2 (amended): `normalize_weight_class` is idempotent on every input
whose normalized form is a fixed point of the two stripping
substitutions, i.e. whenever the output neither retains a removable
bout-type suffix nor a removable leading `UFC`; in general a second
application can strip further. -/
theorem C2_normalize_idempotent_on_stable (s : Str)
    (h1 : subSuffix (normalize_weight_class (some s)) = normalize_weight_class (some s))
    (h2 : subUfc (normalize_weight_class (some s)) = normalize_weight_class (some s)) :
    normalize_weight_class (some (normalize_weight_class (some s))) =
      normalize_weight_class (some s) := by
  have hc := clean_text_normalize s
  have hne := normalize_ne_nil s
  show (if subUfc (subSuffix (clean_text (normalize_weight_class (some s)))) = []
      then toL "Unknown"
      else clean_text (subUfc (subSuffix (clean_text (normalize_weight_class (some s)))))) =
    normalize_weight_class (some s)
  rw [hc, h1, h2, if_neg hne]
  exact hc

/-- C2 (witness for the amended claim): `"Lightweight Bout"` normalizes
to `"Lightweight"`, which is stable, and renormalizing leaves it
unchanged. -/
theorem C2_witness :
    normalize_weight_class (some (normalize_weight_class (some (toL "Lightweight Bout")))) =
      normalize_weight_class (some (toL "Lightweight Bout")) :=
  C2_normalize_idempotent_on_stable (toL "Lightweight Bout") (by decide) (by decide)

/-- C5: `parse_height_to_cm` converts `5' 11"` to
`round((5*12+11) * 2.54) = 180` centimeters and maps the placeholder
`--` to `none`. -/
theorem C5_parse_height :
    parse_height_to_cm (toL "5" ++ [apos, Char.ofNat 32] ++ toL "11" ++ [dquo]) =
        some (pyRound ((5 * 12 + 11) * 254) 100) ∧
    pyRound ((5 * 12 + 11) * 254) 100 = 180 ∧
    parse_height_to_cm (toL "--") = none := by decide

/-- C6: `normalize_weight_class` strips a trailing bout-type suffix
case-insensitively, strips a leading `UFC `, preserves a leading
`Women's`, and maps an empty result to `Unknown`. -/
theorem C6_normalize_examples :
    normalize_weight_class (some (toL "Women" ++ [apos] ++ toL "s Strawweight Bout")) =
        toL "Women" ++ [apos] ++ toL "s Strawweight" ∧
    normalize_weight_class (some (toL "UFC Lightweight Title Bout")) = toL "Lightweight" ∧
    normalize_weight_class (some (toL "LIGHTWEIGHT bOuT")) = toL "LIGHTWEIGHT" ∧
    normalize_weight_class (some (toL "   ")) = toL "Unknown" := by decide

theorem stripPre_append (p s : Str) : stripPre p (p ++ s) = some s := by
  induction p with
  | nil => rfl
  | cons c cs ih => simp [stripPre, ih]

theorem parse_some_imp {url t : Str}
    (h : parse_fighter_id_from_url url = some t) :
    hasTrailingFighterId url = true := by
  unfold parse_fighter_id_from_url at h
  by_cases hurl : url = []
  · rw [if_pos hurl] at h
    exact absurd h (by simp)
  rw [if_neg hurl] at h
  set u := if url.getLast? = some nl then url.dropLast else url with hu
  set rev := u.reverse with hrev
  by_cases hcond : (rev.takeWhile isAsciiAlnum).reverse ≠ [] ∧
      endsWithL ((rev.dropWhile isAsciiAlnum).reverse) (toL "fighter-details/") = true
  · rw [if_pos hcond] at h
    obtain ⟨hne, hsuf⟩ := hcond
    have ht : t = (rev.takeWhile isAsciiAlnum).reverse := by
      injection h with h'
      exact h'.symm
    -- the string before the trailing run ends with "fighter-details/"
    have hfd : (toL "fighter-details/") <:+ (rev.dropWhile isAsciiAlnum).reverse := by
      have := List.isPrefixOf_iff_prefix.mp hsuf
      rw [List.reverse_reverse] at this
      exact List.reverse_prefix.mp (by simpa using this)
    obtain ⟨p, hp⟩ := hfd
    -- u decomposes as p ++ "fighter-details/" ++ t
    have hsplitu : (rev.dropWhile isAsciiAlnum).reverse ++ t = u := by
      rw [ht, ← List.reverse_append, List.takeWhile_append_dropWhile, hrev,
        List.reverse_reverse]
    have hdecomp : u = p ++ (toL "fighter-details/" ++ t) := by
      rw [← hsplitu, ← hp]
      simp
    have htalnum : t.all isAsciiAlnum = true := by
      rw [ht]
      rw [List.all_eq_true]
      intro c hc
      exact List.mem_takeWhile_imp (List.mem_reverse.mp hc)
    have hmem : toL "fighter-details/" ++ t ∈ u.tails := by
      rw [List.mem_tails]
      exact ⟨p, hdecomp.symm⟩
    have hends : endsWithFighterId u = true := by
      unfold endsWithFighterId
      rw [List.any_eq_true]
      refine ⟨toL "fighter-details/" ++ t, hmem, ?_⟩
      rw [stripPre_append]
      simp only [htalnum, Bool.and_true]
      have h0 : t ≠ [] := by rw [ht]; exact hne
      simpa using h0
    unfold hasTrailingFighterId
    by_cases hlast : url.getLast? = some nl
    · have : u = url.dropLast := by rw [hu, if_pos hlast]
      rw [← this, hends, hlast]
      simp
    · have : u = url := by rw [hu, if_neg hlast]
      rw [← this, hends]
      simp
  · rw [if_neg hcond] at h
    exact absurd h (by simp)

/-- C7: `parse_fighter_id_from_url` extracts the trailing segment after
`fighter-details/` (example: `abc123`), and every URL without a trailing
`fighter-details/` id segment yields `none`. -/
theorem C7_parse_fighter_id :
    parse_fighter_id_from_url (toL "http://site/fighter-details/abc123") =
        some (toL "abc123") ∧
    ∀ url : Str, hasTrailingFighterId url = false →
      parse_fighter_id_from_url url = none := by
  refine ⟨by decide, ?_⟩
  intro url hurl
  cases hp : parse_fighter_id_from_url url with
  | none => rfl
  | some t => rw [parse_some_imp hp] at hurl; simp at hurl

/-- C7 (witness): a URL without the `fighter-details/` segment maps to
`none`. -/
theorem C7_witness :
    parse_fighter_id_from_url (toL "http://site/event-details/xyz9") = none :=
  C7_parse_fighter_id.2 (toL "http://site/event-details/xyz9") (by decide)

theorem buildFight_winner (d : Str) (row : FightRow) (dl : Str) :
    (buildFight d row dl).winner =
      determineWinner (row.cols.getD 0 emptyCol).statusClasses
        (buildFight d row dl).fighter1_name (buildFight d row dl).fighter2_name := rfl

theorem processRow_some {d : Str} {row : FightRow} {f : Fight}
    (h : processRow d row = some f) :
    ∃ dl, row.dataLink = some dl ∧ dl ≠ [] ∧ ¬ row.cols.length < 10 ∧
      f = buildFight d row dl := by
  unfold processRow at h
  split at h
  · exact absurd h (by simp)
  · rename_i dl hdl
    by_cases h1 : dl = []
    · rw [if_pos h1] at h; exact absurd h (by simp)
    · rw [if_neg h1] at h
      by_cases h2 : row.cols.length < 10
      · rw [if_pos h2] at h; exact absurd h (by simp)
      · rw [if_neg h2] at h
        injection h with h'
        exact ⟨dl, hdl, h1, h2, h'.symm⟩

/-- C1: for every fight record produced from a row, when the fighter-1
status icon is present the winner is decided solely by its CSS classes —
green means fighter 1's extracted name, else red means fighter 2's
extracted name, else blue means `Draw`, else yellow means `No Contest`,
else `N/A`; and when the icon is absent the winner is `N/A`. -/
theorem C1_winner_by_status (d : Str) (row : FightRow) (f : Fight)
    (h : processRow d row = some f) :
    (∀ cls, (row.cols.getD 0 emptyCol).statusClasses = some cls →
        f.winner =
          (if toL "b-fight-details__person-status_style_green" ∈ cls then f.fighter1_name
           else if toL "b-fight-details__person-status_style_red" ∈ cls then f.fighter2_name
           else if toL "b-fight-details__person-status_style_blue" ∈ cls then toL "Draw"
           else if toL "b-fight-details__person-status_style_yellow" ∈ cls then toL "No Contest"
           else toL "N/A")) ∧
    ((row.cols.getD 0 emptyCol).statusClasses = none → f.winner = toL "N/A") := by
  obtain ⟨dl, -, -, -, hf⟩ := processRow_some h
  subst hf
  constructor
  · intro cls hcls
    rw [buildFight_winner, hcls]
    rfl
  · intro hnone
    rw [buildFight_winner, hnone]
    rfl

/-- C1 (witness): on a ten-column row whose fighter-1 status icon
carries the green class, the produced record's winner equals fighter 1's
extracted name. -/
theorem C1_witness :
    (buildFight sampleDate sampleRow (toL "/fight-details/ccc333")).winner =
      (buildFight sampleDate sampleRow (toL "/fight-details/ccc333")).fighter1_name := by
  have h := (C1_winner_by_status sampleDate sampleRow
      (buildFight sampleDate sampleRow (toL "/fight-details/ccc333")) (by rfl)).1
      [toL "b-fight-details__person-status_style_green"] (by rfl)
  rw [h]
  rfl

/-- C4: a fight row whose `data-link` attribute is present but which has
fewer than 10 structured columns is skipped and contributes no record to
the output sequence. -/
theorem C4_short_row_skipped (d : Str) (row : FightRow)
    (hdl : row.dataLink ≠ none) (hlen : row.cols.length < 10) :
    processRow d row = none ∧
    ∀ pre post : List FightRow,
      scrape_event_fights d (pre ++ row :: post) = scrape_event_fights d (pre ++ post) := by
  have hnone : processRow d row = none := by
    unfold processRow
    split
    · rfl
    · rename_i dl _hdl
      by_cases h1 : dl = []
      · rw [if_pos h1]
      · rw [if_neg h1, if_pos hlen]
  refine ⟨hnone, ?_⟩
  intro pre post
  unfold scrape_event_fights
  rw [List.filterMap_append, List.filterMap_append]
  congr 1
  simp [List.filterMap_cons, hnone]

/-- C4 (witness): an eight-column row with a `data-link` produces
nothing, and a scrape over just that row yields the empty sequence. -/
theorem C4_witness :
    processRow sampleDate ⟨some (toL "/fight-details/ddd444"), List.replicate 8 emptyCol⟩ = none ∧
    scrape_event_fights sampleDate
      [⟨some (toL "/fight-details/ddd444"), List.replicate 8 emptyCol⟩] = [] := by
  have h := C4_short_row_skipped sampleDate
    ⟨some (toL "/fight-details/ddd444"), List.replicate 8 emptyCol⟩ (by simp) (by simp)
  exact ⟨h.1, by simpa using h.2 [] []⟩

/-- C8: every fight record produced by the fight-row extractor has a
winner equal to fighter 1's extracted name, fighter 2's extracted name,
`Draw`, `No Contest`, or `N/A` — never any other string. -/
theorem C8_winner_invariant (d : Str) (rows : List FightRow) (f : Fight)
    (h : f ∈ scrape_event_fights d rows) :
    f.winner = f.fighter1_name ∨ f.winner = f.fighter2_name ∨
    f.winner = toL "Draw" ∨ f.winner = toL "No Contest" ∨ f.winner = toL "N/A" := by
  obtain ⟨row, -, hrow⟩ := List.mem_filterMap.mp h
  obtain ⟨dl, -, -, -, hf⟩ := processRow_some hrow
  subst hf
  rw [buildFight_winner]
  cases hst : (row.cols.getD 0 emptyCol).statusClasses with
  | none => right; right; right; right; rfl
  | some cls =>
      simp only [determineWinner]
      by_cases h1 : toL "b-fight-details__person-status_style_green" ∈ cls
      · rw [if_pos h1]; left; rfl
      rw [if_neg h1]
      by_cases h2 : toL "b-fight-details__person-status_style_red" ∈ cls
      · rw [if_pos h2]; right; left; rfl
      rw [if_neg h2]
      by_cases h3 : toL "b-fight-details__person-status_style_blue" ∈ cls
      · rw [if_pos h3]; right; right; left; rfl
      rw [if_neg h3]
      by_cases h4 : toL "b-fight-details__person-status_style_yellow" ∈ cls
      · rw [if_pos h4]; right; right; right; left; rfl
      rw [if_neg h4]
      right; right; right; right; rfl

theorem strLe_total (a : Str) : ∀ b, strLe a b = true ∨ strLe b a = true := by
  induction a with
  | nil => intro b; left; rfl
  | cons c cs ih =>
      intro b
      cases b with
      | nil => right; rfl
      | cons d ds =>
          rcases Nat.lt_trichotomy c.toNat d.toNat with h | h | h
          · left; simp [strLe, h]
          · rcases ih ds with h2 | h2
            · left; simp [strLe, h, h2]
            · right; simp [strLe, h.symm, h2]
          · right; simp [strLe, h]

theorem strLe_trans : ∀ (a b c : Str), strLe a b = true → strLe b c = true →
    strLe a c = true := by
  intro a
  induction a with
  | nil => intro b c _ _; rfl
  | cons x xs ih =>
      intro b c hab hbc
      cases b with
      | nil => simp [strLe] at hab
      | cons y ys =>
          cases c with
          | nil => simp [strLe] at hbc
          | cons z zs =>
              simp only [strLe, Bool.or_eq_true, Bool.and_eq_true,
                decide_eq_true_eq] at hab hbc ⊢
              rcases hab with h1 | ⟨h1, h1'⟩
              · rcases hbc with h2 | ⟨h2, h2'⟩
                · exact Or.inl (h1.trans h2)
                · exact Or.inl (h2 ▸ h1)
              · rcases hbc with h2 | ⟨h2, h2'⟩
                · exact Or.inl (h1 ▸ h2)
                · exact Or.inr ⟨h1.trans h2, ih ys zs h1' h2'⟩

theorem insertEntry_perm (x : FighterEntry) (l : List FighterEntry) :
    List.Perm (insertEntry x l) (x :: l) := by
  induction l with
  | nil => simp [insertEntry]
  | cons y ys ih =>
      by_cases h : strLe x.name y.name = true
      · simp [insertEntry, h]
      · simp only [insertEntry, h, if_neg, Bool.false_eq_true, if_false]
        exact (List.Perm.cons y ih).trans (List.Perm.swap x y ys)

theorem sortByName_perm (l : List FighterEntry) : List.Perm (sortByName l) l := by
  induction l with
  | nil => exact List.Perm.refl []
  | cons x xs ih =>
      show List.Perm (insertEntry x (sortByName xs)) (x :: xs)
      exact (insertEntry_perm x (sortByName xs)).trans (List.Perm.cons x ih)

theorem pairwise_insertEntry (x : FighterEntry) (l : List FighterEntry)
    (h : List.Pairwise (fun a b : FighterEntry => strLe a.name b.name = true) l) :
    List.Pairwise (fun a b : FighterEntry => strLe a.name b.name = true)
      (insertEntry x l) := by
  induction l with
  | nil => simp [insertEntry]
  | cons y ys ih =>
      obtain ⟨hy, hys⟩ := List.pairwise_cons.mp h
      by_cases hxy : strLe x.name y.name = true
      · simp only [insertEntry, hxy, if_true]
        refine List.pairwise_cons.mpr ⟨?_, h⟩
        intro z hz
        rcases List.mem_cons.mp hz with h1 | h1
        · subst h1; exact hxy
        · exact strLe_trans _ _ _ hxy (hy z h1)
      · simp only [insertEntry, hxy, Bool.false_eq_true, if_false]
        refine List.pairwise_cons.mpr ⟨?_, ih hys⟩
        intro z hz
        have hz' : z ∈ x :: ys := (insertEntry_perm x ys).mem_iff.mp hz
        rcases List.mem_cons.mp hz' with h1 | h1
        · rw [h1]
          rcases (strLe_total x.name y.name) with h2 | h2
          · exact absurd h2 hxy
          · exact h2
        · exact hy z h1

theorem sortByName_sorted (l : List FighterEntry) :
    List.Pairwise (fun a b : FighterEntry => strLe a.name b.name = true)
      (sortByName l) := by
  induction l with
  | nil => simp [sortByName]
  | cons x xs ih => exact pairwise_insertEntry x (sortByName xs) ih

theorem addFighter_none (wc : Str) (acc : Str → List FighterEntry) (n : Str) :
    addFighter wc acc (n, none) = acc := rfl

theorem addFighter_some (wc : Str) (acc : Str → List FighterEntry) (n u : Str) :
    addFighter wc acc (n, some u) =
      if n ≠ [] ∧ n ≠ toL "N/A" ∧ u ≠ [] then
        if (⟨n, u⟩ : FighterEntry) ∈ acc wc then acc
        else fun w => if w = wc then acc wc ++ [⟨n, u⟩] else acc w
      else acc := rfl

theorem addFighter_nodup {wc : Str} {acc : Str → List FighterEntry}
    (h : ∀ w, (acc w).Nodup) (p : Str × Option Str) :
    ∀ w, ((addFighter wc acc p) w).Nodup := by
  obtain ⟨n, uo⟩ := p
  cases uo with
  | none => exact h
  | some u =>
      intro w
      rw [addFighter_some]
      split
      · split
        · exact h w
        · rename_i hguard hmem
          show (if w = wc then acc wc ++ [(⟨n, u⟩ : FighterEntry)] else acc w).Nodup
          by_cases hw : w = wc
          · rw [if_pos hw]
            have hperm := List.perm_append_singleton (⟨n, u⟩ : FighterEntry) (acc wc)
            rw [hperm.nodup_iff]
            exact List.nodup_cons.mpr ⟨hmem, h wc⟩
          · rw [if_neg hw]; exact h w
      · exact h w

theorem addFight_nodup {acc : Str → List FighterEntry}
    (h : ∀ w, (acc w).Nodup) (f : Fight) : ∀ w, ((addFight acc f) w).Nodup := by
  show ∀ w, ((addFighter (fightWc f) (addFighter (fightWc f) acc
      (f.fighter1_name, f.fighter1_url)) (f.fighter2_name, f.fighter2_url)) w).Nodup
  exact addFighter_nodup (addFighter_nodup h _) _

theorem foldl_addFight_nodup (fights : List Fight) :
    ∀ acc, (∀ w, (acc w).Nodup) → ∀ w, ((fights.foldl addFight acc) w).Nodup := by
  induction fights with
  | nil => intro acc h w; exact h w
  | cons f fs ih =>
      intro acc h w
      rw [List.foldl_cons]
      exact ih (addFight acc f) (addFight_nodup h f) w

/-- C3: within every weight class, the built fighter index is sorted
lexicographically by name and contains no duplicate (name, url) pair;
and on the concrete example of two lightweight fights sharing one
fighter, it contains exactly the three distinct fighters in name
order. -/
theorem C3_fighter_index_sorted_nodup :
    (∀ (fights : List Fight) (wc : Str),
        List.Pairwise (fun a b : FighterEntry => strLe a.name b.name = true)
          (update_fighter_index fights wc) ∧
        (update_fighter_index fights wc).Nodup) ∧
    update_fighter_index [sampleFightA, sampleFightB] (toL "Lightweight") =
      [⟨toL "Alice Smith", toL "http://ufcstats.com/fighter-details/aaa111"⟩,
       ⟨toL "Bea Jones", toL "http://ufcstats.com/fighter-details/bbb222"⟩,
       ⟨toL "Cara Lee", toL "http://ufcstats.com/fighter-details/ddd444"⟩] := by
  constructor
  · intro fights wc
    constructor
    · exact sortByName_sorted (buildRawIndex fights wc)
    · have hraw : (buildRawIndex fights wc).Nodup :=
        foldl_addFight_nodup fights (fun _ => []) (by simp) wc
      exact (sortByName_perm (buildRawIndex fights wc)).nodup_iff.mpr hraw
  · decide

theorem mem_addFighter {wc : Str} {acc : Str → List FighterEntry}
    {p : Str × Option Str} {w : Str} {e : FighterEntry}
    (h : e ∈ (addFighter wc acc p) w) :
    e ∈ acc w ∨
      (p = (e.name, some e.url) ∧ e.name ≠ [] ∧ e.name ≠ toL "N/A" ∧ e.url ≠ []) := by
  obtain ⟨n, uo⟩ := p
  cases uo with
  | none => exact Or.inl h
  | some u =>
      rw [addFighter_some] at h
      split at h
      · split at h
        · exact Or.inl h
        · rename_i hguard hmem
          have h2 : e ∈ (if w = wc then acc wc ++ [(⟨n, u⟩ : FighterEntry)] else acc w) := h
          by_cases hw : w = wc
          · rw [if_pos hw] at h2
            rcases List.mem_append.mp h2 with h1 | h1
            · subst hw; exact Or.inl h1
            · have he : e = ⟨n, u⟩ := by simpa using h1
              subst he
              exact Or.inr ⟨rfl, hguard.1, hguard.2.1, hguard.2.2⟩
          · rw [if_neg hw] at h2; exact Or.inl h2
      · exact Or.inl h

theorem mem_addFight {acc : Str → List FighterEntry} {f : Fight} {w : Str}
    {e : FighterEntry} (h : e ∈ (addFight acc f) w) :
    e ∈ acc w ∨
      ((e.name, some e.url) ∈ fightParticipants f ∧
        e.name ≠ [] ∧ e.name ≠ toL "N/A" ∧ e.url ≠ []) := by
  have h' : e ∈ (addFighter (fightWc f) (addFighter (fightWc f) acc
      (f.fighter1_name, f.fighter1_url)) (f.fighter2_name, f.fighter2_url)) w := h
  rcases mem_addFighter h' with h1 | ⟨hp, hc⟩
  · rcases mem_addFighter h1 with h2 | ⟨hp, hc⟩
    · exact Or.inl h2
    · exact Or.inr ⟨by rw [← hp]; simp [fightParticipants], hc⟩
  · exact Or.inr ⟨by rw [← hp]; simp [fightParticipants], hc⟩

theorem mem_foldl_addFight (fights : List Fight) :
    ∀ (acc : Str → List FighterEntry) (w : Str) (e : FighterEntry),
      e ∈ (fights.foldl addFight acc) w →
      e ∈ acc w ∨
        (∃ f ∈ fights, (e.name, some e.url) ∈ fightParticipants f) ∧
          e.name ≠ [] ∧ e.name ≠ toL "N/A" ∧ e.url ≠ [] := by
  induction fights with
  | nil => intro acc w e h; exact Or.inl h
  | cons f fs ih =>
      intro acc w e h
      rw [List.foldl_cons] at h
      rcases ih (addFight acc f) w e h with h1 | ⟨⟨g, hg, hp⟩, hc⟩
      · rcases mem_addFight h1 with h2 | ⟨hp, hc⟩
        · exact Or.inl h2
        · exact Or.inr ⟨⟨f, by simp, hp⟩, hc⟩
      · exact Or.inr ⟨⟨g, by simp [hg], hp⟩, hc⟩

/-- C10: the built fighter index never contains an entry for a
participant whose extracted name is empty or `N/A` or whose URL is
missing or empty: every index entry has a valid name and a nonempty URL
and stems from a participant of some fight whose URL was present. -/
theorem C10_index_excludes_invalid (fights : List Fight) (wc : Str)
    (e : FighterEntry) (h : e ∈ update_fighter_index fights wc) :
    e.name ≠ [] ∧ e.name ≠ toL "N/A" ∧ e.url ≠ [] ∧
    ∃ f ∈ fights, (e.name, some e.url) ∈ fightParticipants f := by
  have h' : e ∈ buildRawIndex fights wc :=
    (sortByName_perm (buildRawIndex fights wc)).mem_iff.mp h
  rcases mem_foldl_addFight fights (fun _ => []) wc e h' with h0 | ⟨⟨f, hf, hp⟩, c1, c2, c3⟩
  · simp at h0
  · exact ⟨c1, c2, c3, f, hf, hp⟩

/-- C10 (witness): the Alice Smith entry of the sample index has a valid
name, a nonempty URL, and stems from a participant of the sample
fight. -/
theorem C10_witness :
    (⟨toL "Alice Smith", toL "http://ufcstats.com/fighter-details/aaa111"⟩ :
        FighterEntry).name ≠ [] ∧
    (⟨toL "Alice Smith", toL "http://ufcstats.com/fighter-details/aaa111"⟩ :
        FighterEntry).name ≠ toL "N/A" ∧
    (⟨toL "Alice Smith", toL "http://ufcstats.com/fighter-details/aaa111"⟩ :
        FighterEntry).url ≠ [] ∧
    ∃ f ∈ [sampleFightA],
      ((⟨toL "Alice Smith", toL "http://ufcstats.com/fighter-details/aaa111"⟩ :
          FighterEntry).name,
        some (⟨toL "Alice Smith", toL "http://ufcstats.com/fighter-details/aaa111"⟩ :
          FighterEntry).url) ∈ fightParticipants f :=
  C10_index_excludes_invalid [sampleFightA] (toL "Lightweight")
    ⟨toL "Alice Smith", toL "http://ufcstats.com/fighter-details/aaa111"⟩ (by decide)

/-- C8 (witness): the record produced from the sample row satisfies the
winner invariant. -/
theorem C8_witness :
    (buildFight sampleDate sampleRow (toL "/fight-details/ccc333")).winner =
        (buildFight sampleDate sampleRow (toL "/fight-details/ccc333")).fighter1_name ∨
    (buildFight sampleDate sampleRow (toL "/fight-details/ccc333")).winner =
        (buildFight sampleDate sampleRow (toL "/fight-details/ccc333")).fighter2_name ∨
    (buildFight sampleDate sampleRow (toL "/fight-details/ccc333")).winner = toL "Draw" ∨
    (buildFight sampleDate sampleRow (toL "/fight-details/ccc333")).winner = toL "No Contest" ∨
    (buildFight sampleDate sampleRow (toL "/fight-details/ccc333")).winner = toL "N/A" :=
  C8_winner_invariant sampleDate [sampleRow]
    (buildFight sampleDate sampleRow (toL "/fight-details/ccc333")) (by simp [scrape_event_fights]; rfl)

/-- C9: while both models and a nonempty feature-name list are loaded, a
request whose feature vector length differs from the feature-name list
length fails with HTTP 400 and yields no prediction; a prediction is
returned only when the lengths match exactly. -/
theorem C9_predict_length_gate {F : Type} (feature_names : List Str)
    (models : Models F) (request_data : PredictionRequest F)
    (hfn : feature_names ≠ []) :
    (request_data.features.length ≠ feature_names.length →
      predict true true feature_names models request_data =
        Except.error ⟨400,
          toL "Feature mismatch. Expected " ++ (toString feature_names.length).data
            ++ toL " features, got "
            ++ (toString request_data.features.length).data ++ toL "."⟩) ∧
    (∀ resp, predict true true feature_names models request_data = Except.ok resp →
      request_data.features.length = feature_names.length) := by
  constructor
  · intro hne
    unfold predict
    rw [if_neg (by simp), if_neg hfn, if_pos hne]
  · intro resp h
    by_cases hlen : request_data.features.length = feature_names.length
    · exact hlen
    · unfold predict at h
      rw [if_neg (by simp), if_neg hfn, if_pos hlen] at h
      exact absurd h (by simp)

/-- C9 (witness): with one persisted feature name and a two-element
feature vector, the endpoint answers HTTP 400. -/
theorem C9_witness :
    predict true true [toL "height_diff"]
        (⟨fun _ => 0, fun _ _ => (), fun _ => 0⟩ : Models Unit)
        ⟨toL "Amanda Ribas", toL "Rose Namajunas", [(), ()]⟩ =
      Except.error ⟨400, toL "Feature mismatch. Expected 1 features, got 2."⟩ := by
  have h := (C9_predict_length_gate [toL "height_diff"]
      (⟨fun _ => 0, fun _ _ => (), fun _ => 0⟩ : Models Unit)
      ⟨toL "Amanda Ribas", toL "Rose Namajunas", [(), ()]⟩ (by simp)).1 (by simp)
  rw [h]
  rfl
